import Mathlib

/-!
Verification of the documentation-generator in `generate_docs.py`.

The Python source is shallowly embedded: strings are Lean `String`s
(manipulated through their underlying `List Char`), the Python AST subset
that `parse_python` inspects is the inductive `PyStmt`, and the in-memory
graph (`Node` / `Edge` / `GraphSimple`) is an arena: node identity (Python
object identity, compared with `is` during rendering) is modelled by the
node's index in the insertion-ordered node list, and the arbitrary
machine-level `id(self)` values by an arbitrary supply function
`Nat → Nat` applied at creation time.

`ast.parse` is standard-library code outside this repository, so
`parse_python` is parameterised by an abstract parse function
`String → Option (List PyStmt)`; `ast.get_docstring` is modelled as
extraction of a leading string-constant statement (its `clean=True`
whitespace normalisation of multi-line docstrings is not modelled; no
theorem below depends on it).  The optional Jaseci runtime is inert in
this environment (`USE_JASECI = False` when the import fails) and the
spec declares it out of scope, so it is not modelled.  Filesystem writes
are modelled by `applyWrites` over a map from file name to contents.
-/

/-- Python `str.strip()` whitespace test, restricted to the ASCII
whitespace characters (space, tab, newline, carriage return, vertical
tab, form feed). -/
def isPySpace (c : Char) : Bool :=
  c == ' ' || c == '\t' || c == '\n' || c == '\r' || c.toNat == 11 || c.toNat == 12

/-- Python `str.strip()` on a character list. -/
def pyStripL (l : List Char) : List Char :=
  ((l.dropWhile isPySpace).reverse.dropWhile isPySpace).reverse

/-- Python `str.strip()`. -/
def pyStrip (s : String) : String :=
  String.mk (pyStripL s.data)

/-- Python `str.lower()` (ASCII case folding). -/
def pyLower (s : String) : String :=
  String.mk (s.data.map Char.toLower)

/-- Python `sep.join(parts)`: empty for no parts, otherwise the parts
interleaved with the separator. -/
def joinSep (sep : String) : List String → String
  | [] => ""
  | [a] => a
  | a :: rest => a ++ sep ++ joinSep sep rest

/-- Python `str.endswith(suffix)`. -/
def pyEndswith (s suf : String) : Bool :=
  suf.data.isSuffixOf s.data

/-- `pathlib.Path(p).name`: the component after the last `/`. -/
def pathName (p : String) : String :=
  String.mk ((p.data.reverse.takeWhile (fun c => !(c == '/'))).reverse)

/-- `pathlib.Path(p).suffix`: the final extension of the last component,
computed exactly like pathlib (`name[i:]` for the last `.` at index `i`
when `0 < i < len(name) - 1`, else the empty string). -/
def pathSuffix (p : String) : String :=
  let n := (pathName p).data
  match List.findIdx? (fun c => c == '.') n.reverse with
  | none => ""
  | some rj =>
      let i := n.length - 1 - rj
      if 0 < i ∧ i < n.length - 1 then String.mk (n.drop i) else ""

/-- The allow-list test of `main`'s walk (generate_docs.py line 129):
`fn.lower().endswith((".py", ".js", ".java", ".ts", ".cpp", ".c", ".h"))`. -/
def extOK (fn : String) : Bool :=
  [".py", ".js", ".java", ".ts", ".cpp", ".c", ".h"].any
    (fun e => pyEndswith (pyLower fn) e)

/-- The extractor-selection test of `main` (generate_docs.py line 143):
`path.suffix == ".py"`. -/
def selectsPython (p : String) : Bool :=
  pathSuffix p == ".py"

/-! ### CommentExtractor (`parse_generic_comments`, lines 51-72) -/

/-- Scanner for the closing `*/` of a block comment: splits a character
list at the first occurrence of `*/`, returning the content before it and
the remainder after it, or `none` when no `*/` occurs. -/
def splitAtClose : List Char → Option (List Char × List Char)
  | [] => none
  | '*' :: '/' :: rest => some ([], rest)
  | c :: rest =>
      match splitAtClose rest with
      | none => none
      | some pr => some (c :: pr.1, pr.2)

/-- Fuelled scan for the non-overlapping matches of the non-greedy regex
`/\*(.*?)\*/` (DOTALL): find the next `/*`, pair it with the nearest
following `*/`, keep the stripped content when non-empty, resume after
the `*/`.  Every recursive call consumes at least one character, so fuel
equal to the length of the scanned list never runs out. -/
def blockScanF : Nat → List Char → List (String × String)
  | 0, _ => []
  | _ + 1, [] => []
  | fuel + 1, '/' :: '*' :: rest =>
      match splitAtClose rest with
      | none => []
      | some (content, rest') =>
          let snippet := pyStripL content
          if snippet = [] then blockScanF fuel rest'
          else ("comment_block", String.mk snippet) :: blockScanF fuel rest'
  | fuel + 1, _ :: rest => blockScanF fuel rest

/-- The block-comment pass of `parse_generic_comments` (lines 53-57). -/
def blockScan (l : List Char) : List (String × String) :=
  blockScanF l.length l

/-- One line step of Python `str.splitlines`: the content up to the first
line break (`\n`, `\r\n` or `\r`) and, when a break was found, the
remainder after it. -/
def breakLine : List Char → List Char × Option (List Char)
  | [] => ([], none)
  | '\r' :: '\n' :: rest => ([], some rest)
  | '\n' :: rest => ([], some rest)
  | '\r' :: rest => ([], some rest)
  | c :: rest =>
      let pr := breakLine rest
      (c :: pr.1, pr.2)

/-- Fuelled Python `str.splitlines` (no trailing empty line for a final
line break, `[]` on the empty string).  Each step consumes at least the
line-break character, so fuel equal to the input length suffices. -/
def splitLinesF : Nat → List Char → List (List Char)
  | 0, _ => []
  | _ + 1, [] => []
  | fuel + 1, s =>
      match breakLine s with
      | (l, none) => [l]
      | (l, some rest) => l :: splitLinesF fuel rest

/-- Python `content.splitlines()`. -/
def pySplitlines (l : List Char) : List (List Char) :=
  splitLinesF l.length l

/-- Classification of a stripped line by the line scan of
`parse_generic_comments` (lines 62-65): `stripped.startswith("//")`
keeps `stripped[2:].strip()`, otherwise `stripped.startswith("#")`
keeps `stripped[1:].strip()`, otherwise the line is not a comment
line. -/
def lineMarker : List Char → Option (List Char)
  | '/' :: '/' :: tail => some (pyStripL tail)
  | '#' :: tail => some (pyStripL tail)
  | _ => none

/-- The flushed item for a non-empty buffer:
`("comment_block", "\n".join(buff).strip())`. -/
def flushItem (buff : List (List Char)) : String × String :=
  ("comment_block", String.mk (pyStripL (List.intercalate ['\n'] buff)))

/-- The line-comment pass of `parse_generic_comments` (lines 58-71),
with the accumulating buffer `buff` and the items list built so far:
a stripped line starting `//` or `#` feeds the buffer, any other line
flushes a non-empty buffer as one joined-and-stripped item, and a final
non-empty buffer is flushed at end of input. -/
def lineLoop : List (List Char) → List (List Char) → List (String × String) →
    List (String × String)
  | [], buff, items =>
      if buff = [] then items else items ++ [flushItem buff]
  | ln :: rest, buff, items =>
      match lineMarker (pyStripL ln) with
      | some t => lineLoop rest (buff ++ [t]) items
      | none =>
          if buff = [] then lineLoop rest [] items
          else lineLoop rest [] (items ++ [flushItem buff])

/-- `parse_generic_comments` (lines 51-72): the block-comment pass fills
the items list first, then the line scan appends to the same list. -/
def parse_generic_comments (content : String) : List (String × String) :=
  let items := blockScan content.data
  lineLoop (pySplitlines content.data) [] items

/-! ### StructuredDocExtractor (`parse_python`, lines 14-49) -/

/-- The fragment of the Python AST that `parse_python` inspects.  A
statement is a (possibly async) function definition with its body, a
class definition with its body, an expression statement consisting of a
string constant (the shape `ast.get_docstring` recognises), or any other
statement. -/
inductive PyStmt where
  | functionDef (name : String) (body : List PyStmt)
  | asyncFunctionDef (name : String) (body : List PyStmt)
  | classDef (name : String) (body : List PyStmt)
  | exprConst (s : String)
  | other

/-- `ast.get_docstring` applied to a node with the given body (and to the
module, whose body is the top-level statement list): the string constant
standing first in the body, if any. -/
def pyGetDocstring : List PyStmt → Option String
  | PyStmt.exprConst s :: _ => some s
  | _ => none

/-- The method scan of the `ClassDef` branch (lines 37-42): every
(possibly async) function defined directly in the class body, with its
stripped docstring-or-empty, in declaration order. -/
def methodsOf (body : List PyStmt) : List (String × String) :=
  body.filterMap fun elt =>
    match elt with
    | PyStmt.functionDef m mb => some (m, pyStrip ((pyGetDocstring mb).getD ""))
    | PyStmt.asyncFunctionDef m mb => some (m, pyStrip ((pyGetDocstring mb).getD ""))
    | _ => none

/-- The class body text of the `ClassDef` branch (lines 43-48): the
stripped class docstring, extended when methods exist by the
`Methods:` section accumulated line by line, then stripped, with
`"(no doc)"` substituted when the result is empty. -/
def classBodyText (body : List PyStmt) : String :=
  let doc := pyStrip ((pyGetDocstring body).getD "")
  let ms := methodsOf body
  let body_lines :=
    if ms = [] then doc
    else ms.foldl
      (fun acc md => acc ++ "- " ++ md.1 ++ "(): " ++ (if md.2 = "" then "(no doc)" else md.2) ++ "\n")
      (doc ++ "\n\nMethods:\n")
  if pyStrip body_lines = "" then "(no doc)" else pyStrip body_lines

/-- The `for node in module.body` loop of `parse_python` (lines 23-48),
appending to the accumulated items list. -/
def pyLoop : List PyStmt → List (String × String) → List (String × String)
  | [], items => items
  | node :: rest, items =>
      match node with
      | PyStmt.functionDef name body =>
          pyLoop rest (items ++ [("def " ++ name ++ "()", pyStrip ((pyGetDocstring body).getD ""))])
      | PyStmt.asyncFunctionDef name body =>
          pyLoop rest (items ++ [("async def " ++ name ++ "()", pyStrip ((pyGetDocstring body).getD ""))])
      | PyStmt.classDef name body =>
          pyLoop rest (items ++ [("class " ++ name, classBodyText body)])
      | _ => pyLoop rest items

/-- `parse_python` (lines 14-49).  `ast.parse` is standard-library code,
so it enters as the abstract `parse` argument; `except Exception` is the
`none` case.  A non-empty module docstring contributes the first item
(the Python code tests the docstring's truthiness before stripping). -/
def parse_python (parse : String → Option (List PyStmt)) (content : String) :
    List (String × String) :=
  match parse content with
  | none => parse_generic_comments content
  | some module =>
      let items : List (String × String) :=
        match pyGetDocstring module with
        | some d => if d = "" then [] else [("module", pyStrip d)]
        | none => []
      pyLoop module items

/-! ### DocGraph (`Node` / `Edge` / `GraphSimple`, lines 74-99) -/

/-- A graph node: `nid` models the arbitrary machine identity stored by
`Node.__init__` (`self.id = id(self)`, never read by the pipeline),
`j_type` the node type, `props` the keyword properties. -/
structure Node where
  nid : Nat
  j_type : String
  props : List (String × String)
deriving Repr, DecidableEq

/-- A graph edge; Python stores object references to the endpoint nodes
and rendering compares them with `is`, which the arena model renders as
the endpoints' indices in the node list. -/
structure Edge where
  j_type : String
  src : Nat
  dst : Nat
deriving Repr, DecidableEq

/-- `GraphSimple`: insertion-ordered node and edge lists. -/
structure GraphSimple where
  nodes : List Node
  edges : List Edge
deriving Repr, DecidableEq

/-- `GraphSimple.add_node`: append a fresh node; its index (the model of
its identity) is the previous length, its `nid` is drawn from the supply
at that index. -/
def GraphSimple.add_node (g : GraphSimple) (supply : Nat → Nat) (j_type : String)
    (props : List (String × String)) : GraphSimple :=
  { g with nodes := g.nodes ++ [⟨supply g.nodes.length, j_type, props⟩] }

/-- `GraphSimple.add_edge`: append an edge, no validation. -/
def GraphSimple.add_edge (g : GraphSimple) (j_type : String) (src dst : Nat) : GraphSimple :=
  { g with edges := g.edges ++ [⟨j_type, src, dst⟩] }

/-- `GraphSimple.find_nodes`: all nodes of a type, in insertion order. -/
def GraphSimple.find_nodes (g : GraphSimple) (j_type : String) : List Node :=
  g.nodes.filter (fun n => n.j_type == j_type)

/-- Placeholder node for out-of-range index lookups; every lookup the
pipeline performs is proved in range. -/
def defaultNode : Node := ⟨0, "", []⟩

/-- Python `dict` lookup with a default over our property lists (whose
keys are unique by construction). -/
def propsGet : List (String × String) → String → String → String
  | [], _, d => d
  | kv :: rest, k, d => if kv.1 = k then kv.2 else propsGet rest k d

/-! ### Orchestrator (`main`, lines 116-185) -/

/-- The `lang` property stored on doc nodes (line 150):
`path.suffix.lstrip(".")`. -/
def langOf (p : String) : String :=
  (pathSuffix p).dropWhile (fun c => c == '.')

/-- The extractor dispatch of `main` (lines 143-146). -/
def rawItems (parse : String → Option (List PyStmt)) (p c : String) :
    List (String × String) :=
  if selectsPython p then parse_python parse c else parse_generic_comments c

/-- The items used for a file after the placeholder substitution of
lines 147-148. -/
def itemsOf (parse : String → Option (List PyStmt)) (p c : String) :
    List (String × String) :=
  let raw := rawItems parse p c
  if raw = [] then [("Summary", "No docstrings or comment blocks found in " ++ pathName p)]
  else raw

/-- The body of the `for title, body in items` loop (lines 149-151): add
a doc node (body defaulted to `"(no description)"` when empty, `lang` the
dot-stripped extension) and a `for_file` edge from the doc node to the
file node at index `fidx`. -/
def addDocStep (supply : Nat → Nat) (lang : String) (fidx : Nat)
    (acc : GraphSimple) (tb : String × String) : GraphSimple :=
  let didx := acc.nodes.length
  let acc1 := acc.add_node supply "doc"
    [("title", tb.1),
     ("body", if tb.2 = "" then "(no description)" else tb.2),
     ("lang", lang)]
  acc1.add_edge "for_file" didx fidx

/-- The body of the `for path in file_paths` loop (lines 135-155),
Jaseci mirroring elided as inert: add the file node, then for each item
add a doc node and a `for_file` edge from the doc node to the file
node. -/
def processFile (parse : String → Option (List PyStmt)) (supply : Nat → Nat)
    (g : GraphSimple) (p c : String) : GraphSimple :=
  let fidx := g.nodes.length
  let g1 := g.add_node supply "file" [("path", p), ("content", c)]
  (itemsOf parse p c).foldl (addDocStep supply (langOf p) fidx) g1

/-- The whole file loop of `main` over the discovered `(path, content)`
pairs, in walk order, starting from the empty graph. -/
def runPipeline (parse : String → Option (List PyStmt)) (supply : Nat → Nat)
    (inputs : List (String × String)) : GraphSimple :=
  inputs.foldl (fun g pc => processFile parse supply g pc.1 pc.2) ⟨[], []⟩

/-- The `linked_docs` computation of the rendering loop (line 171): the
source nodes of the `for_file` edges whose destination is the file node
at index `i`, in edge-creation order. -/
def linkedDocs (g : GraphSimple) (i : Nat) : List Node :=
  (g.edges.filter (fun e => decide (e.j_type = "for_file" ∧ e.dst = i))).map
    (fun e => g.nodes.getD e.src defaultNode)

/-- The nodes of a given type paired with their indices (their
identities), in insertion order: `find_nodes` plus the identity
information the renderer's `is` comparisons use. -/
def typedEntries (t : String) : Nat → List Node → List (Nat × Node)
  | _, [] => []
  | i, n :: rest =>
      if n.j_type = t then (i, n) :: typedEntries t (i + 1) rest
      else typedEntries t (i + 1) rest

/-- The markdown rendering of one file node (lines 172-183): heading,
path line, then either the `"No extracted docs found."` line or a
subheading-plus-body pair per linked doc, joined with `"\n"`; the output
file name is `<basename>.md`. -/
def renderEntry (g : GraphSimple) (pr : Nat × Node) : String × String :=
  let path := propsGet pr.2.props "path" ""
  let name := pathName path
  let linked := linkedDocs g pr.1
  let lines :=
    ["# " ++ name ++ "\n", "_path_: `" ++ path ++ "`\n"] ++
      (if linked = [] then ["No extracted docs found.\n"]
       else linked.foldr
         (fun d acc =>
           ("## " ++ propsGet d.props "title" "" ++ "\n") ::
             (propsGet d.props "body" "(no description)" ++ "\n") :: acc)
         [])
  (name ++ ".md", joinSep "\n" lines)

/-- The rendering loop of `main` (lines 170-184): one `(file name,
contents)` write per file node, in creation order. -/
def renderOutputs (g : GraphSimple) : List (String × String) :=
  (typedEntries "file" 0 g.nodes).map (renderEntry g)

/-- The effect of the sequence of `out.write_text` calls on an output
directory, modelled as a map from file name to contents: each write
replaces the file's previous contents. -/
def applyWrites (fs : String → Option String) : List (String × String) → String → Option String
  | [] => fs
  | nc :: rest => applyWrites (fun q => if q = nc.1 then some nc.2 else fs q) rest

/-! ### Closed forms and invariants used by the proofs -/

/-- Closed form of the doc nodes `addDocStep` creates for the given
items, the first at node index `k`. -/
def docNodesFrom (supply : Nat → Nat) (lang : String) : Nat → List (String × String) → List Node
  | _, [] => []
  | k, tb :: rest =>
      ⟨supply k, "doc",
        [("title", tb.1),
         ("body", if tb.2 = "" then "(no description)" else tb.2),
         ("lang", lang)]⟩ :: docNodesFrom supply lang (k + 1) rest

/-- Closed form of the edges `addDocStep` creates: one `for_file` edge
per item, sources consecutive from `s`, all destinations `fidx`. -/
def docEdgesFor (fidx : Nat) : Nat → List (String × String) → List Edge
  | _, [] => []
  | s, _ :: rest => ⟨"for_file", s, fidx⟩ :: docEdgesFor fidx (s + 1) rest

/-- The graph invariant of C8: every edge is a `for_file` edge from a
`doc` node present in the node list to a `file` node present in the node
list. -/
def EdgeInv (g : GraphSimple) : Prop :=
  ∀ e ∈ g.edges,
    e.j_type = "for_file" ∧
    e.src < g.nodes.length ∧ (g.nodes.getD e.src defaultNode).j_type = "doc" ∧
    e.dst < g.nodes.length ∧ (g.nodes.getD e.dst defaultNode).j_type = "file"

/-- The renderer-safety invariant of C10: every file node has at least
one linked doc, so the renderer's zero-linked-docs branch is dead. -/
def FileLinked (g : GraphSimple) : Prop :=
  ∀ pr ∈ typedEntries "file" 0 g.nodes, linkedDocs g pr.1 ≠ []

/-! ### Specification-side definitions

These re-state, in the spec's words, what the orchestrator and the
structured extractor are claimed to produce; the theorems below compare
them with the embedded code. -/

/-- Per-statement items of the structured extractor as the spec describes
them: one `def <name>()` / `async def <name>()` / `class <name>` item per
top-level definition, nothing for any other statement. -/
def itemsForStmt : PyStmt → List (String × String)
  | PyStmt.functionDef name body =>
      [("def " ++ name ++ "()", pyStrip ((pyGetDocstring body).getD ""))]
  | PyStmt.asyncFunctionDef name body =>
      [("async def " ++ name ++ "()", pyStrip ((pyGetDocstring body).getD ""))]
  | PyStmt.classDef name body => [("class " ++ name, classBodyText body)]
  | PyStmt.exprConst _ => []
  | PyStmt.other => []

/-- The module-docstring items the code produces: one `module` item when
the module docstring exists and is non-empty. -/
def moduleDocItems (module : List PyStmt) : List (String × String) :=
  match pyGetDocstring module with
  | some d => if d = "" then [] else [("module", pyStrip d)]
  | none => []

/-- Claimed (C6 wording) item list of `parse_python` on a parsable
module: a `module` item whenever a module docstring exists (empty or
not), then the per-statement items. -/
def claimedParsePythonItems (module : List PyStmt) : List (String × String) :=
  (match pyGetDocstring module with
   | some d => [("module", pyStrip d)]
   | none => []) ++ module.flatMap itemsForStmt

/-- The line-comment-run items of the second pass of
`parse_generic_comments`, described directly (no accumulated items
list): each maximal run of `//` / `#` lines contributes one joined and
stripped item. -/
def lineItemsPure : List (List Char) → List (List Char) → List (String × String)
  | [], buff => if buff = [] then [] else [flushItem buff]
  | ln :: rest, buff =>
      match lineMarker (pyStripL ln) with
      | some t => lineItemsPure rest (buff ++ [t])
      | none => (if buff = [] then [] else [flushItem buff]) ++ lineItemsPure rest []

/-- Concatenation of a list of strings, used to state the `Methods:`
section of C5 the way the spec words it (one line per method). -/
def joinAll : List String → String
  | [] => ""
  | s :: rest => s ++ joinAll rest

/-- The markdown document the spec promises for one discovered file, as
a function of the file alone: heading, path line, one
subheading-plus-body pair per extracted item. -/
def perFileOutput (parse : String → Option (List PyStmt)) (p c : String) : String × String :=
  (pathName p ++ ".md",
   joinSep "\n"
     (["# " ++ pathName p ++ "\n", "_path_: `" ++ p ++ "`\n"] ++
       (itemsOf parse p c).flatMap
         (fun tb => ["## " ++ tb.1 ++ "\n",
                     (if tb.2 = "" then "(no description)" else tb.2) ++ "\n"])))

/-! ## Helper lemmas -/

theorem lineLoop_eq_append (lines : List (List Char)) :
    ∀ buff items, lineLoop lines buff items = items ++ lineItemsPure lines buff := by
  induction lines with
  | nil =>
      intro buff items
      by_cases hb : buff = [] <;> simp [lineLoop, lineItemsPure, hb]
  | cons ln rest ih =>
      intro buff items
      cases h : lineMarker (pyStripL ln) with
      | some t => simp [lineLoop, lineItemsPure, h, ih]
      | none =>
          by_cases hb : buff = [] <;>
            simp [lineLoop, lineItemsPure, h, hb, ih, List.append_assoc]

theorem pyLoop_eq_append (l : List PyStmt) :
    ∀ items, pyLoop l items = items ++ l.flatMap itemsForStmt := by
  induction l with
  | nil => intro items; simp [pyLoop]
  | cons s rest ih =>
      intro items
      cases s <;> simp [pyLoop, itemsForStmt, ih, List.append_assoc]

theorem parse_python_parsable (parse : String → Option (List PyStmt)) (content : String)
    (module : List PyStmt) (h : parse content = some module) :
    parse_python parse content = moduleDocItems module ++ module.flatMap itemsForStmt := by
  simp only [parse_python, h]
  exact pyLoop_eq_append module _

theorem methods_foldl (ms : List (String × String)) :
    ∀ init : String,
      ms.foldl
        (fun acc md =>
          acc ++ "- " ++ md.1 ++ "(): " ++ (if md.2 = "" then "(no doc)" else md.2) ++ "\n")
        init =
      init ++ joinAll (ms.map
        (fun md => "- " ++ md.1 ++ "(): " ++ (if md.2 = "" then "(no doc)" else md.2) ++ "\n")) := by
  induction ms with
  | nil => intro init; simp [joinAll]
  | cons md rest ih =>
      intro init
      rw [List.foldl_cons, ih]
      simp [joinAll, String.append_assoc]

theorem classBodyText_spec (body : List PyStmt) :
    classBodyText body =
      (let doc := pyStrip ((pyGetDocstring body).getD "")
       let ms := methodsOf body
       let combined := doc ++
         (if ms = [] then ""
          else "\n\nMethods:\n" ++ joinAll (ms.map
            (fun md => "- " ++ md.1 ++ "(): " ++ (if md.2 = "" then "(no doc)" else md.2) ++ "\n")))
       if pyStrip combined = "" then "(no doc)" else pyStrip combined) := by
  by_cases hm : methodsOf body = []
  · simp [classBodyText, hm]
  · simp only [classBodyText, hm, if_false, if_neg, not_false_iff]
    rw [methods_foldl]
    simp [String.append_assoc]

/-! ## Claims -/

/-- C3: `parse_generic_comments` returns all non-empty trimmed block
comment items first (the first pass, in order of appearance), followed by
all line-comment-run items (the second pass, in file order), never
interleaved by source position; and the input `/* A */` followed by three
consecutive `//` lines yields exactly the two items, block item first. -/
theorem spec_C3 :
    (∀ content : String,
      parse_generic_comments content =
        blockScan content.data ++ lineItemsPure (pySplitlines content.data) []) ∧
    parse_generic_comments "/* A */\n// one\n// two\n// three" =
      [("comment_block", "A"), ("comment_block", "one\ntwo\nthree")] := by
  constructor
  · intro content
    simpa [parse_generic_comments] using
      lineLoop_eq_append (pySplitlines content.data) [] (blockScan content.data)
  · decide

/-- C4: whenever the abstract syntax-tree parse fails (`ast.parse`
raised, the `none` case), `parse_python` returns exactly
`parse_generic_comments` on the same text; being a total Lean function
it neither raises nor returns an error value. -/
theorem spec_C4 (parse : String → Option (List PyStmt)) (content : String)
    (h : parse content = none) :
    parse_python parse content = parse_generic_comments content := by
  simp [parse_python, h]

/-- Witness for C4 at a concrete malformed input: the fallback output is
the comment-extraction result. -/
theorem spec_C4_witness :
    parse_python (fun _ => none) "# hi" = parse_generic_comments "# hi" ∧
    parse_generic_comments "# hi" = [("comment_block", "hi")] :=
  ⟨spec_C4 (fun _ => none) "# hi" rfl, by decide⟩

/-- C5: for a parsable module containing a top-level class, `parse_python`
emits for that class exactly one item titled `class <name>` whose body is
the trimmed class docstring followed, when methods exist, by a `Methods:`
section with one `- <name>(): <doc or '(no doc)'>` line per directly
defined method in declaration order, the whole trimmed, with `"(no doc)"`
substituted when empty; and the two-method example yields
`- m1(): returns 1` before `- m2(): (no doc)`. -/
theorem spec_C5 :
    (∀ (parse : String → Option (List PyStmt)) (content : String)
        (module pre post : List PyStmt) (name : String) (cbody : List PyStmt),
      parse content = some module →
      module = pre ++ PyStmt.classDef name cbody :: post →
      parse_python parse content =
        moduleDocItems module ++ pre.flatMap itemsForStmt ++
          ("class " ++ name,
            (let doc := pyStrip ((pyGetDocstring cbody).getD "")
             let ms := methodsOf cbody
             let combined := doc ++
               (if ms = [] then ""
                else "\n\nMethods:\n" ++ joinAll (ms.map (fun md =>
                  "- " ++ md.1 ++ "(): " ++ (if md.2 = "" then "(no doc)" else md.2) ++ "\n")))
             if pyStrip combined = "" then "(no doc)" else pyStrip combined)) ::
            post.flatMap itemsForStmt) ∧
    parse_python
        (fun _ => some [PyStmt.classDef "C"
          [PyStmt.functionDef "m1" [PyStmt.exprConst "returns 1"],
           PyStmt.functionDef "m2" []]]) "src" =
      [("class C", "Methods:\n- m1(): returns 1\n- m2(): (no doc)")] := by
  constructor
  · intro parse content module pre post name cbody hp hm
    rw [parse_python_parsable parse content module hp, hm]
    simp [itemsForStmt, classBodyText_spec, List.append_assoc]
  · decide

/-- Witness for C5 at a concrete parsable input: a documented class with
no methods yields its trimmed docstring as body. -/
theorem spec_C5_witness :
    parse_python (fun _ => some [PyStmt.classDef "D" [PyStmt.exprConst "Represents D."]])
        "src" = [("class D", "Represents D.")] := by
  have h := spec_C5.1
    (fun _ => some [PyStmt.classDef "D" [PyStmt.exprConst "Represents D."]]) "src"
    [PyStmt.classDef "D" [PyStmt.exprConst "Represents D."]] [] [] "D"
    [PyStmt.exprConst "Represents D."] rfl rfl
  exact h.trans (by decide)

/-- C6 counterexample: the claim promises the `module` item whenever a
module docstring exists, but the code tests the docstring's truthiness,
so a present-but-empty module docstring (first statement the string
constant `""`) yields no item: the code returns `[]` where the claimed
item list is `[("module", "")]`. -/
theorem spec_C6_counterexample :
    parse_python (fun _ => some [PyStmt.exprConst ""]) "src" = [] ∧
    claimedParsePythonItems [PyStmt.exprConst ""] = [("module", "")] := by
  constructor <;> decide

/-- C6 (amended): for every parsable input the item sequence is the
`module` item first when the module docstring exists and is non-empty
(`moduleDocItems`; a present-but-empty docstring yields no item), then
one item per top-level function, async function and class in textual
declaration order; function items do not depend on the function body
beyond its docstring (nested definitions are not visited), and every
other top-level statement contributes no item. -/
theorem spec_C6 (parse : String → Option (List PyStmt)) (content : String)
    (module : List PyStmt) (h : parse content = some module) :
    parse_python parse content = moduleDocItems module ++ module.flatMap itemsForStmt ∧
    itemsForStmt PyStmt.other = [] ∧
    (∀ s, itemsForStmt (PyStmt.exprConst s) = []) ∧
    (∀ (name : String) (b1 b2 : List PyStmt), pyGetDocstring b1 = pyGetDocstring b2 →
      itemsForStmt (PyStmt.functionDef name b1) = itemsForStmt (PyStmt.functionDef name b2)) ∧
    (∀ (name : String) (b1 b2 : List PyStmt), pyGetDocstring b1 = pyGetDocstring b2 →
      itemsForStmt (PyStmt.asyncFunctionDef name b1) =
        itemsForStmt (PyStmt.asyncFunctionDef name b2)) := by
  refine ⟨parse_python_parsable parse content module h, rfl, fun s => rfl, ?_, ?_⟩
  · intro name b1 b2 hdoc; simp [itemsForStmt, hdoc]
  · intro name b1 b2 hdoc; simp [itemsForStmt, hdoc]

/-- Witness for C6 at a concrete parsable module with a docstring, a
function, a class and a non-definition statement. -/
theorem spec_C6_witness :
    parse_python
        (fun _ => some [PyStmt.exprConst "Mod doc.",
          PyStmt.functionDef "f" [PyStmt.exprConst "Does X."],
          PyStmt.other,
          PyStmt.classDef "K" []]) "src" =
      [("module", "Mod doc."), ("def f()", "Does X."), ("class K", "(no doc)")] := by
  have h := (spec_C6
    (fun _ => some [PyStmt.exprConst "Mod doc.",
      PyStmt.functionDef "f" [PyStmt.exprConst "Does X."],
      PyStmt.other,
      PyStmt.classDef "K" []]) "src"
    [PyStmt.exprConst "Mod doc.",
      PyStmt.functionDef "f" [PyStmt.exprConst "Does X."],
      PyStmt.other,
      PyStmt.classDef "K" []] rfl).1
  exact h.trans (by decide)

theorem docFold_closed (supply : Nat → Nat) (lang : String) (fidx : Nat)
    (items : List (String × String)) :
    ∀ g : GraphSimple,
      items.foldl (addDocStep supply lang fidx) g =
        ⟨g.nodes ++ docNodesFrom supply lang g.nodes.length items,
         g.edges ++ docEdgesFor fidx g.nodes.length items⟩ := by
  induction items with
  | nil => intro g; cases g; simp [docNodesFrom, docEdgesFor]
  | cons tb rest ih =>
      intro g
      rw [List.foldl_cons, ih]
      simp [addDocStep, GraphSimple.add_node, GraphSimple.add_edge,
        docNodesFrom, docEdgesFor, List.append_assoc]

theorem processFile_eq (parse : String → Option (List PyStmt)) (supply : Nat → Nat)
    (g : GraphSimple) (p c : String) :
    processFile parse supply g p c =
      ⟨g.nodes ++
          ⟨supply g.nodes.length, "file", [("path", p), ("content", c)]⟩ ::
            docNodesFrom supply (langOf p) (g.nodes.length + 1) (itemsOf parse p c),
        g.edges ++ docEdgesFor g.nodes.length (g.nodes.length + 1) (itemsOf parse p c)⟩ := by
  unfold processFile
  rw [docFold_closed]
  simp [GraphSimple.add_node, List.append_assoc]

theorem docNodesFrom_types (supply : Nat → Nat) (lang : String) :
    ∀ (items : List (String × String)) (k : Nat) (x : Node),
      x ∈ docNodesFrom supply lang k items → x.j_type = "doc" := by
  intro items
  induction items with
  | nil => intro k x hx; simp [docNodesFrom] at hx
  | cons tb rest ih =>
      intro k x hx
      rcases (by simpa [docNodesFrom] using hx) with h | h
      · rw [h]
      · exact ih (k + 1) x h

theorem docNodesFrom_length (supply : Nat → Nat) (lang : String) :
    ∀ (items : List (String × String)) (k : Nat),
      (docNodesFrom supply lang k items).length = items.length := by
  intro items
  induction items with
  | nil => intro k; simp [docNodesFrom]
  | cons tb rest ih => intro k; simp [docNodesFrom, ih]

theorem docNodesFrom_ne_nil (supply : Nat → Nat) (lang : String)
    (items : List (String × String)) (k : Nat) (h : items ≠ []) :
    docNodesFrom supply lang k items ≠ [] := by
  cases items with
  | nil => exact absurd rfl h
  | cons tb rest => simp [docNodesFrom]

theorem docEdgesFor_mem (fidx : Nat) :
    ∀ (items : List (String × String)) (s : Nat) (e : Edge),
      e ∈ docEdgesFor fidx s items →
      e.j_type = "for_file" ∧ e.dst = fidx ∧ s ≤ e.src ∧ e.src < s + items.length := by
  intro items
  induction items with
  | nil => intro s e he; simp [docEdgesFor] at he
  | cons tb rest ih =>
      intro s e he
      rcases (by simpa [docEdgesFor] using he) with h | h
      · rw [h]; refine ⟨rfl, rfl, Nat.le_refl s, ?_⟩
        simp
      · obtain ⟨h1, h2, h3, h4⟩ := ih (s + 1) e h
        refine ⟨h1, h2, Nat.le_of_succ_le h3, ?_⟩
        simp only [List.length_cons]
        omega

theorem docEdgesFor_ne_nil (fidx s : Nat) (items : List (String × String)) (h : items ≠ []) :
    docEdgesFor fidx s items ≠ [] := by
  cases items with
  | nil => exact absurd rfl h
  | cons tb rest => simp [docEdgesFor]

theorem docEdgesFor_filter_self (fidx : Nat) :
    ∀ (items : List (String × String)) (s : Nat),
      (docEdgesFor fidx s items).filter
        (fun e => decide (e.j_type = "for_file" ∧ e.dst = fidx)) =
      docEdgesFor fidx s items := by
  intro items
  induction items with
  | nil => intro s; simp [docEdgesFor]
  | cons tb rest ih =>
      intro s
      rw [docEdgesFor, List.filter_cons, if_pos (by simp), ih]

theorem docEdgesFor_filter_ne (fidx i : Nat) (hne : i ≠ fidx) :
    ∀ (items : List (String × String)) (s : Nat),
      (docEdgesFor fidx s items).filter
        (fun e => decide (e.j_type = "for_file" ∧ e.dst = i)) = [] := by
  intro items
  induction items with
  | nil => intro s; simp [docEdgesFor]
  | cons tb rest ih =>
      intro s
      rw [docEdgesFor, List.filter_cons, if_neg (by simp [Ne.symm hne]), ih]

theorem typedEntries_append (t : String) :
    ∀ (l1 l2 : List Node) (i : Nat),
      typedEntries t i (l1 ++ l2) =
        typedEntries t i l1 ++ typedEntries t (i + l1.length) l2 := by
  intro l1
  induction l1 with
  | nil => intro l2 i; simp [typedEntries]
  | cons n rest ih =>
      intro l2 i
      have harith : i + 1 + rest.length = i + (rest.length + 1) := by omega
      by_cases h : n.j_type = t <;>
        simp [typedEntries, h, ih, harith]

theorem typedEntries_none (t : String) :
    ∀ (l : List Node) (i : Nat), (∀ n ∈ l, n.j_type ≠ t) → typedEntries t i l = [] := by
  intro l
  induction l with
  | nil => intro i _; rfl
  | cons n rest ih =>
      intro i h
      have hn : n.j_type ≠ t := h n (by simp)
      simp [typedEntries, hn, ih (i + 1) (fun m hm => h m (by simp [hm]))]

theorem typedEntries_mem_lt (t : String) :
    ∀ (l : List Node) (i : Nat) (pr : Nat × Node),
      pr ∈ typedEntries t i l → i ≤ pr.1 ∧ pr.1 < i + l.length := by
  intro l
  induction l with
  | nil => intro i pr h; simp [typedEntries] at h
  | cons n rest ih =>
      intro i pr h
      by_cases hn : n.j_type = t
      · rcases (by simpa [typedEntries, hn] using h) with h1 | h1
        · rw [h1]; constructor
          · exact Nat.le_refl i
          · simp
        · obtain ⟨h2, h3⟩ := ih (i + 1) pr h1
          refine ⟨Nat.le_of_succ_le h2, ?_⟩
          simp only [List.length_cons]
          omega
      · obtain ⟨h2, h3⟩ := ih (i + 1) pr (by simpa [typedEntries, hn] using h)
        refine ⟨Nat.le_of_succ_le h2, ?_⟩
        simp only [List.length_cons]
        omega

theorem map_getD_docEdges (supply : Nat → Nat) (lang : String) (fidx : Nat) (d : Node) :
    ∀ (items : List (String × String)) (s : Nat) (pre : List Node), pre.length = s →
      (docEdgesFor fidx s items).map
          (fun e => (pre ++ docNodesFrom supply lang s items).getD e.src d) =
        docNodesFrom supply lang s items := by
  intro items
  induction items with
  | nil => intro s pre hpre; simp [docEdgesFor, docNodesFrom]
  | cons tb rest ih =>
      intro s pre hpre
      rw [docEdgesFor, docNodesFrom, List.map_cons]
      congr 1
      · show (pre ++ _ :: docNodesFrom supply lang (s + 1) rest).getD s d = _
        have hs : pre.length ≤ s := le_of_eq hpre
        rw [List.getD_append_right _ _ _ _ hs, hpre]
        simp
      · have hpre1 : (pre ++ [(⟨supply s, "doc",
            [("title", tb.1),
             ("body", if tb.2 = "" then "(no description)" else tb.2),
             ("lang", lang)]⟩ : Node)]).length = s + 1 := by
          simp [hpre]
        have h := ih (s + 1) _ hpre1
        rw [List.append_assoc] at h
        simpa using h

theorem docNodesFrom_getD_type (supply : Nat → Nat) (lang : String) (d : Node) :
    ∀ (items : List (String × String)) (k j : Nat), j < items.length →
      ((docNodesFrom supply lang k items).getD j d).j_type = "doc" := by
  intro items
  induction items with
  | nil => intro k j hj; simp at hj
  | cons tb rest ih =>
      intro k j hj
      cases j with
      | zero => simp [docNodesFrom]
      | succ j' =>
          rw [docNodesFrom]
          simpa using ih (k + 1) j' (by simpa using hj)

theorem itemsOf_ne_nil (parse : String → Option (List PyStmt)) (p c : String) :
    itemsOf parse p c ≠ [] := by
  unfold itemsOf
  by_cases h : rawItems parse p c = [] <;> simp [h]

theorem linkedDocs_extend (g : GraphSimple) (ext : List Node) (newE : List Edge) (i : Nat)
    (hidx : i < g.nodes.length)
    (hsrc : ∀ e ∈ g.edges, e.src < g.nodes.length)
    (hnew : ∀ e ∈ newE, g.nodes.length ≤ e.dst) :
    linkedDocs ⟨g.nodes ++ ext, g.edges ++ newE⟩ i = linkedDocs g i := by
  unfold linkedDocs
  have hfil : newE.filter (fun e => decide (e.j_type = "for_file" ∧ e.dst = i)) = [] := by
    rw [List.filter_eq_nil_iff]
    intro e he
    have := hnew e he
    simp only [decide_eq_true_eq, not_and]
    intro _ hdst
    omega
  rw [List.filter_append, hfil, List.append_nil]
  apply List.map_congr_left
  intro e he
  have hes : e.src < g.nodes.length := hsrc e (List.mem_of_mem_filter he)
  exact List.getD_append _ _ _ _ hes

theorem linkedDocs_new (g : GraphSimple) (supply : Nat → Nat) (lang : String)
    (fn : Node) (items : List (String × String))
    (hdst : ∀ e ∈ g.edges, e.dst < g.nodes.length) :
    linkedDocs
        ⟨g.nodes ++ fn :: docNodesFrom supply lang (g.nodes.length + 1) items,
         g.edges ++ docEdgesFor g.nodes.length (g.nodes.length + 1) items⟩
        g.nodes.length =
      docNodesFrom supply lang (g.nodes.length + 1) items := by
  unfold linkedDocs
  have hold : g.edges.filter
      (fun e => decide (e.j_type = "for_file" ∧ e.dst = g.nodes.length)) = [] := by
    rw [List.filter_eq_nil_iff]
    intro e he
    have := hdst e he
    simp only [decide_eq_true_eq, not_and]
    intro _ hdst2
    omega
  rw [List.filter_append, hold, List.nil_append, docEdgesFor_filter_self]
  have hlen : (g.nodes ++ [fn]).length = g.nodes.length + 1 := by simp
  have h := map_getD_docEdges supply lang g.nodes.length defaultNode items
    (g.nodes.length + 1) (g.nodes ++ [fn]) hlen
  rw [List.append_assoc] at h
  simpa using h

theorem renderEntry_extend (g : GraphSimple) (ext : List Node) (newE : List Edge)
    (pr : Nat × Node) (hidx : pr.1 < g.nodes.length)
    (hsrc : ∀ e ∈ g.edges, e.src < g.nodes.length)
    (hnew : ∀ e ∈ newE, g.nodes.length ≤ e.dst) :
    renderEntry ⟨g.nodes ++ ext, g.edges ++ newE⟩ pr = renderEntry g pr := by
  simp only [renderEntry]
  rw [linkedDocs_extend g ext newE pr.1 hidx hsrc hnew]

theorem docNodes_render_lines (supply : Nat → Nat) (lang : String) :
    ∀ (items : List (String × String)) (k : Nat),
      (docNodesFrom supply lang k items).foldr
        (fun d acc =>
          ("## " ++ propsGet d.props "title" "" ++ "\n") ::
            (propsGet d.props "body" "(no description)" ++ "\n") :: acc)
        [] =
      items.flatMap (fun tb =>
        ["## " ++ tb.1 ++ "\n", (if tb.2 = "" then "(no description)" else tb.2) ++ "\n"]) := by
  intro items
  induction items with
  | nil => intro k; simp [docNodesFrom]
  | cons tb rest ih =>
      intro k
      simp [docNodesFrom, propsGet, ih]

theorem renderEntry_new (parse : String → Option (List PyStmt)) (supply : Nat → Nat)
    (g : GraphSimple) (p c : String)
    (hdst : ∀ e ∈ g.edges, e.dst < g.nodes.length) :
    renderEntry
        ⟨g.nodes ++
            ⟨supply g.nodes.length, "file", [("path", p), ("content", c)]⟩ ::
              docNodesFrom supply (langOf p) (g.nodes.length + 1) (itemsOf parse p c),
          g.edges ++ docEdgesFor g.nodes.length (g.nodes.length + 1) (itemsOf parse p c)⟩
        (g.nodes.length, ⟨supply g.nodes.length, "file", [("path", p), ("content", c)]⟩) =
      perFileOutput parse p c := by
  simp only [renderEntry]
  rw [linkedDocs_new g supply (langOf p)
    ⟨supply g.nodes.length, "file", [("path", p), ("content", c)]⟩ (itemsOf parse p c) hdst]
  have hne : docNodesFrom supply (langOf p) (g.nodes.length + 1) (itemsOf parse p c) ≠ [] :=
    docNodesFrom_ne_nil supply (langOf p) (itemsOf parse p c) (g.nodes.length + 1)
      (itemsOf_ne_nil parse p c)
  rw [if_neg hne, docNodes_render_lines]
  simp [perFileOutput, propsGet]

theorem EdgeInv_processFile (parse : String → Option (List PyStmt)) (supply : Nat → Nat)
    (g : GraphSimple) (p c : String) (hInv : EdgeInv g) :
    EdgeInv (processFile parse supply g p c) := by
  rw [processFile_eq]
  intro e he
  have hlen : (g.nodes ++
      ⟨supply g.nodes.length, "file", [("path", p), ("content", c)]⟩ ::
        docNodesFrom supply (langOf p) (g.nodes.length + 1) (itemsOf parse p c)).length =
      g.nodes.length + 1 + (itemsOf parse p c).length := by
    simp [docNodesFrom_length]
    omega
  rcases List.mem_append.mp he with he | he
  · obtain ⟨h1, h2, h3, h4, h5⟩ := hInv e he
    refine ⟨h1, ?_, ?_, ?_, ?_⟩
    · rw [hlen]; omega
    · rw [List.getD_append _ _ _ _ h2]; exact h3
    · rw [hlen]; omega
    · rw [List.getD_append _ _ _ _ h4]; exact h5
  · obtain ⟨h1, h2, h3, h4⟩ := docEdgesFor_mem _ _ _ e he
    refine ⟨h1, ?_, ?_, ?_, ?_⟩
    · rw [hlen]; omega
    · have hsplit : g.nodes ++
          ⟨supply g.nodes.length, "file", [("path", p), ("content", c)]⟩ ::
            docNodesFrom supply (langOf p) (g.nodes.length + 1) (itemsOf parse p c) =
          (g.nodes ++ [⟨supply g.nodes.length, "file", [("path", p), ("content", c)]⟩]) ++
            docNodesFrom supply (langOf p) (g.nodes.length + 1) (itemsOf parse p c) := by
        simp
      rw [hsplit]
      have hpre : (g.nodes ++
          [(⟨supply g.nodes.length, "file", [("path", p), ("content", c)]⟩ : Node)]).length =
          g.nodes.length + 1 := by simp
      rw [List.getD_append_right _ _ _ _ (by rw [hpre]; omega), hpre]
      exact docNodesFrom_getD_type supply (langOf p) defaultNode (itemsOf parse p c)
        (g.nodes.length + 1) (e.src - (g.nodes.length + 1)) (by omega)
    · rw [hlen]; omega
    · rw [h2, List.getD_append_right _ _ _ _ (Nat.le_refl g.nodes.length), Nat.sub_self]
      rfl

theorem FileLinked_processFile (parse : String → Option (List PyStmt)) (supply : Nat → Nat)
    (g : GraphSimple) (p c : String) (hInv : EdgeInv g) (hFL : FileLinked g) :
    FileLinked (processFile parse supply g p c) := by
  rw [processFile_eq]
  intro pr hpr
  have hentries : typedEntries "file" 0
      (g.nodes ++
        ⟨supply g.nodes.length, "file", [("path", p), ("content", c)]⟩ ::
          docNodesFrom supply (langOf p) (g.nodes.length + 1) (itemsOf parse p c)) =
      typedEntries "file" 0 g.nodes ++
        [(g.nodes.length, ⟨supply g.nodes.length, "file", [("path", p), ("content", c)]⟩)] := by
    rw [typedEntries_append]
    congr 1
    rw [typedEntries]
    have hdocs : typedEntries "file" (g.nodes.length + 1)
        (docNodesFrom supply (langOf p) (g.nodes.length + 1) (itemsOf parse p c)) = [] := by
      apply typedEntries_none
      intro n hn
      rw [docNodesFrom_types supply (langOf p) _ _ n hn]
      decide
    simp [hdocs]
  rw [hentries] at hpr
  rcases List.mem_append.mp hpr with h | h
  · have hlt := (typedEntries_mem_lt _ _ _ _ h).2
    rw [linkedDocs_extend g _ _ pr.1 (by simpa using hlt)
      (fun e he => (hInv e he).2.1)
      (fun e he => le_of_eq (docEdgesFor_mem _ _ _ e he).2.1.symm)]
    exact hFL pr h
  · have hpr2 : pr = (g.nodes.length,
        ⟨supply g.nodes.length, "file", [("path", p), ("content", c)]⟩) := by
      simpa using h
    rw [hpr2]
    rw [linkedDocs_new g supply (langOf p) _ (itemsOf parse p c)
      (fun e he => (hInv e he).2.2.2.1)]
    exact docNodesFrom_ne_nil supply (langOf p) (itemsOf parse p c) (g.nodes.length + 1)
      (itemsOf_ne_nil parse p c)

theorem renderOutputs_processFile (parse : String → Option (List PyStmt)) (supply : Nat → Nat)
    (g : GraphSimple) (p c : String) (hInv : EdgeInv g) :
    renderOutputs (processFile parse supply g p c) =
      renderOutputs g ++ [perFileOutput parse p c] := by
  rw [processFile_eq]
  unfold renderOutputs
  have hentries : typedEntries "file" 0
      (g.nodes ++
        ⟨supply g.nodes.length, "file", [("path", p), ("content", c)]⟩ ::
          docNodesFrom supply (langOf p) (g.nodes.length + 1) (itemsOf parse p c)) =
      typedEntries "file" 0 g.nodes ++
        [(g.nodes.length, ⟨supply g.nodes.length, "file", [("path", p), ("content", c)]⟩)] := by
    rw [typedEntries_append]
    congr 1
    rw [typedEntries]
    have hdocs : typedEntries "file" (g.nodes.length + 1)
        (docNodesFrom supply (langOf p) (g.nodes.length + 1) (itemsOf parse p c)) = [] := by
      apply typedEntries_none
      intro n hn
      rw [docNodesFrom_types supply (langOf p) _ _ n hn]
      decide
    simp [hdocs]
  show (typedEntries "file" 0
      (g.nodes ++
        ⟨supply g.nodes.length, "file", [("path", p), ("content", c)]⟩ ::
          docNodesFrom supply (langOf p) (g.nodes.length + 1) (itemsOf parse p c))).map _ = _
  rw [hentries, List.map_append]
  congr 1
  · apply List.map_congr_left
    intro pr hpr
    have hlt := (typedEntries_mem_lt _ _ _ _ hpr).2
    exact renderEntry_extend g _ _ pr (by simpa using hlt)
      (fun e he => (hInv e he).2.1)
      (fun e he => le_of_eq (docEdgesFor_mem _ _ _ e he).2.1.symm)
  · rw [List.map_cons, List.map_nil]
    rw [renderEntry_new parse supply g p c (fun e he => (hInv e he).2.2.2.1)]

theorem EdgeInv_empty : EdgeInv ⟨[], []⟩ :=
  fun e he => absurd he (List.not_mem_nil e)

theorem FileLinked_empty : FileLinked ⟨[], []⟩ :=
  fun pr hpr => absurd hpr (List.not_mem_nil pr)

theorem pipelineInvs (parse : String → Option (List PyStmt)) (supply : Nat → Nat) :
    ∀ (inputs : List (String × String)) (g : GraphSimple), EdgeInv g → FileLinked g →
      EdgeInv (inputs.foldl (fun g pc => processFile parse supply g pc.1 pc.2) g) ∧
      FileLinked (inputs.foldl (fun g pc => processFile parse supply g pc.1 pc.2) g) := by
  intro inputs
  induction inputs with
  | nil => intro g h1 h2; exact ⟨h1, h2⟩
  | cons pc rest ih =>
      intro g h1 h2
      rw [List.foldl_cons]
      exact ih _ (EdgeInv_processFile parse supply g pc.1 pc.2 h1)
        (FileLinked_processFile parse supply g pc.1 pc.2 h1 h2)

theorem renderOutputs_foldl (parse : String → Option (List PyStmt)) (supply : Nat → Nat) :
    ∀ (inputs : List (String × String)) (g : GraphSimple), EdgeInv g →
      renderOutputs (inputs.foldl (fun g pc => processFile parse supply g pc.1 pc.2) g) =
        renderOutputs g ++ inputs.map (fun pc => perFileOutput parse pc.1 pc.2) := by
  intro inputs
  induction inputs with
  | nil => intro g _; simp
  | cons pc rest ih =>
      intro g hInv
      rw [List.foldl_cons, ih _ (EdgeInv_processFile parse supply g pc.1 pc.2 hInv),
        renderOutputs_processFile parse supply g pc.1 pc.2 hInv]
      simp [List.append_assoc]

theorem renderOutputs_runPipeline (parse : String → Option (List PyStmt)) (supply : Nat → Nat)
    (inputs : List (String × String)) :
    renderOutputs (runPipeline parse supply inputs) =
      inputs.map (fun pc => perFileOutput parse pc.1 pc.2) := by
  unfold runPipeline
  rw [renderOutputs_foldl parse supply inputs ⟨[], []⟩ EdgeInv_empty]
  simp [renderOutputs, typedEntries]

theorem applyWrites_not_written :
    ∀ (outs : List (String × String)) (fs : String → Option String) (name : String),
      (∀ nc ∈ outs, nc.1 ≠ name) → applyWrites fs outs name = fs name := by
  intro outs
  induction outs with
  | nil => intro fs name _; rfl
  | cons nc rest ih =>
      intro fs name h
      rw [applyWrites, ih _ name (fun mc hm => h mc (by simp [hm]))]
      rw [if_neg (Ne.symm (h nc (by simp)))]

theorem applyWrites_writes_eq :
    ∀ (outs : List (String × String)) (fs1 fs2 : String → Option String) (name : String),
      name ∈ outs.map Prod.fst →
      applyWrites fs1 outs name = applyWrites fs2 outs name := by
  intro outs
  induction outs with
  | nil => intro fs1 fs2 name h; simp at h
  | cons nc rest ih =>
      intro fs1 fs2 name h
      by_cases hr : name ∈ rest.map Prod.fst
      · exact ih _ _ name hr
      · have hnc : nc.1 = name := by
          rcases List.mem_map.mp h with ⟨a, ha, hfa⟩
          rcases List.mem_cons.mp ha with h1 | h1
          · rw [h1] at hfa; exact hfa
          · exact absurd (List.mem_map.mpr ⟨a, h1, hfa⟩) hr
        have hnone : ∀ mc ∈ rest, mc.1 ≠ name := by
          intro mc hm heq
          exact hr (List.mem_map.mpr ⟨mc, hm, heq⟩)
        rw [applyWrites, applyWrites, applyWrites_not_written rest _ name hnone,
          applyWrites_not_written rest _ name hnone]
        simp [hnc]

theorem isPrefixOf_self_append (l t : List Char) : l.isPrefixOf (l ++ t) = true := by
  induction l with
  | nil => simp [List.isPrefixOf]
  | cons c rest ih => simp [List.isPrefixOf, ih]

theorem isSuffixOf_append_self (l t : List Char) : l.isSuffixOf (t ++ l) = true := by
  unfold List.isSuffixOf
  rw [List.reverse_append]
  exact isPrefixOf_self_append l.reverse t.reverse

theorem append_ne_empty_left (a b : String) (ha : a ≠ "") : a ++ b ≠ "" := by
  intro h
  apply ha
  have hd := congrArg String.data h
  rw [String.data_append] at hd
  exact String.ext (List.append_eq_nil.mp hd).1

theorem pathSuffix_py_extOK (p : String) (h : pathSuffix p = ".py") :
    extOK (pathName p) = true := by
  have hdata : ∃ t, (pathName p).data = t ++ ['.', 'p', 'y'] := by
    simp only [pathSuffix] at h
    rcases hidx : List.findIdx? (fun c => c == '.') (pathName p).data.reverse with _ | rj
    · simp only [hidx] at h
      exact absurd h (by decide)
    · simp only [hidx] at h
      by_cases hcond : 0 < (pathName p).data.length - 1 - rj ∧
          (pathName p).data.length - 1 - rj < (pathName p).data.length - 1
      · rw [if_pos hcond] at h
        refine ⟨(pathName p).data.take ((pathName p).data.length - 1 - rj), ?_⟩
        have hdrop : (pathName p).data.drop ((pathName p).data.length - 1 - rj) =
            ['.', 'p', 'y'] := congrArg String.data h
        rw [← hdrop]
        exact (List.take_append_drop _ _).symm
      · rw [if_neg hcond] at h
        exact absurd h (by decide)
  obtain ⟨t, ht⟩ := hdata
  have hlow : (pyLower (pathName p)).data = t.map Char.toLower ++ ['.', 'p', 'y'] := by
    show ((pathName p).data.map Char.toLower) = _
    rw [ht, List.map_append]
    congr 1
  have hsuf : pyEndswith (pyLower (pathName p)) ".py" = true := by
    show (".py".data.isSuffixOf (pyLower (pathName p)).data) = true
    rw [hlow]
    exact isSuffixOf_append_self ".py".data (t.map Char.toLower)
  unfold extOK
  rw [List.any_cons]
  rw [hsuf]
  rfl

/-- C1 counterexample: the file name `A.PY` passes the walk's
case-insensitive allow-list (its lowercase form ends in `.py`), yet the
extractor selection compares `path.suffix` to `".py"` case-sensitively,
so the generic comment extractor runs on it instead of `parse_python`:
on the content `// note` the pipeline extracts a comment item where
`parse_python` (under a parse function accepting the content) would
return no items. -/
theorem spec_C1_counterexample :
    extOK "A.PY" = true ∧
    pyEndswith (pyLower "A.PY") ".py" = true ∧
    selectsPython "src/A.PY" = false ∧
    rawItems (fun _ => some []) "src/A.PY" "// note" = [("comment_block", "note")] ∧
    parse_python (fun _ => some []) "// note" = [] := by
  refine ⟨by decide, by decide, by decide, by decide, by decide⟩

/-- C1 (amended): the pipeline selects `parse_python` for a file exactly
when its pathlib suffix equals `".py"` case-sensitively (not under the
walk's case-insensitive match); every path whose suffix is `".py"` also
passes the walk's allow-list, so lower-case `.py` files behave as the
claim says, while enumerated case variants such as `A.PY` fall to the
generic comment extractor. -/
theorem spec_C1 :
    (∀ (parse : String → Option (List PyStmt)) (p c : String),
      rawItems parse p c =
        if selectsPython p then parse_python parse c else parse_generic_comments c) ∧
    (∀ p : String, pathSuffix p = ".py" → extOK (pathName p) = true) ∧
    selectsPython "src/ok.py" = true ∧ extOK "ok.py" = true := by
  exact ⟨fun parse p c => rfl, pathSuffix_py_extOK, by decide, by decide⟩

/-- Witness for C1 at a concrete path whose suffix is exactly `.py`. -/
theorem spec_C1_witness : extOK (pathName "dir/util.py") = true :=
  spec_C1.2.1 "dir/util.py" (by decide)

/-- C2 counterexample: two distinct discovered source files that share a
basename are written to the same output file name, so the pipeline does
not write two distinct output files for them. -/
theorem spec_C2_counterexample :
    ("src/a/x.py" : String) ≠ "src/b/x.py" ∧
    (renderOutputs (runPipeline (fun _ => some []) (fun n => n)
        [("src/a/x.py", ""), ("src/b/x.py", "")])).map Prod.fst =
      ["x.py.md", "x.py.md"] := by
  exact ⟨by decide, by decide⟩

/-- C2 (amended): the pipeline writes one markdown output per discovered
source file, in walk order, named `<basename-with-original-extension>.md`;
discovered files with distinct basenames get distinct output files, but
files sharing a basename collide on the same output path (the later
write overwrites the earlier one). -/
theorem spec_C2 :
    (∀ (parse : String → Option (List PyStmt)) (supply : Nat → Nat)
        (inputs : List (String × String)),
      (renderOutputs (runPipeline parse supply inputs)).map Prod.fst =
        inputs.map (fun pc => pathName pc.1 ++ ".md")) ∧
    (∀ p q : String, pathName p ≠ pathName q →
      pathName p ++ ".md" ≠ pathName q ++ ".md") := by
  constructor
  · intro parse supply inputs
    rw [renderOutputs_runPipeline, List.map_map]
    apply List.map_congr_left
    intro pc _
    rfl
  · intro p q hpq h
    apply hpq
    have hd := congrArg String.data h
    simp only [String.data_append] at hd
    exact String.ext (List.append_cancel_right hd)

/-- Witness for C2: two files with distinct basenames get distinct
output names. -/
theorem spec_C2_witness :
    pathName "a/x.py" ++ ".md" ≠ pathName "b/y.py" ++ ".md" :=
  spec_C2.2 "a/x.py" "b/y.py" (by decide)

/-- C7: a discovered file whose extraction yields no items gets exactly
the synthesized `("Summary", "No docstrings or comment blocks found in
<filename>")` item, and its rendered markdown is the heading, the path
line, and the literal placeholder body under the `## Summary`
subheading. -/
theorem spec_C7 (parse : String → Option (List PyStmt)) (supply : Nat → Nat)
    (inputs : List (String × String)) (i : Nat) (p c : String)
    (hin : inputs.get? i = some (p, c)) (hraw : rawItems parse p c = []) :
    itemsOf parse p c =
      [("Summary", "No docstrings or comment blocks found in " ++ pathName p)] ∧
    (renderOutputs (runPipeline parse supply inputs)).get? i =
      some (pathName p ++ ".md",
        "# " ++ pathName p ++ "\n" ++ "\n" ++ "_path_: `" ++ p ++ "`\n" ++ "\n" ++
          "## Summary\n" ++ "\n" ++
          "No docstrings or comment blocks found in " ++ pathName p ++ "\n") := by
  have hitems : itemsOf parse p c =
      [("Summary", "No docstrings or comment blocks found in " ++ pathName p)] := by
    simp [itemsOf, hraw]
  refine ⟨hitems, ?_⟩
  rw [renderOutputs_runPipeline, List.get?_map, hin]
  have hbody : ("No docstrings or comment blocks found in " ++ pathName p) ≠ "" :=
    append_ne_empty_left _ _ (by decide)
  have hpf : perFileOutput parse p c =
      (pathName p ++ ".md",
        "# " ++ pathName p ++ "\n" ++ "\n" ++ "_path_: `" ++ p ++ "`\n" ++ "\n" ++
          "## Summary\n" ++ "\n" ++
          "No docstrings or comment blocks found in " ++ pathName p ++ "\n") := by
    unfold perFileOutput
    rw [hitems]
    simp only [List.flatMap_cons, List.flatMap_nil, if_neg hbody, List.append_nil,
      List.cons_append, List.nil_append]
    rw [Prod.mk.injEq]
    refine ⟨rfl, ?_⟩
    apply String.ext
    simp only [joinSep, String.data_append, List.append_assoc, List.cons_append,
      List.nil_append]
  show Option.map (fun pc => perFileOutput parse pc.1 pc.2) (some (p, c)) = _
  rw [Option.map_some']
  rw [show perFileOutput parse (p, c).1 (p, c).2 = perFileOutput parse p c from rfl, hpf]

/-- Witness for C7: a `.js` file with no comments at all. -/
theorem spec_C7_witness :
    rawItems (fun _ => none) "src/empty.js" "" = [] ∧
    (renderOutputs (runPipeline (fun _ => none) (fun n => n)
        [("src/empty.js", "")])).get? 0 =
      some ("empty.js.md",
        "# empty.js\n\n_path_: `src/empty.js`\n\n## Summary\n\nNo docstrings or comment blocks found in empty.js\n") := by
  refine ⟨by decide, ?_⟩
  have h := (spec_C7 (fun _ => none) (fun n => n) [("src/empty.js", "")] 0 "src/empty.js" ""
    rfl (by decide)).2
  exact h.trans (by decide)

/-- C8: in every graph state the pipeline reaches (after processing any
prefix of the discovered files), every edge is a `for_file` edge, its
source an in-range index of a `doc` node and its destination an in-range
index of a `file` node. -/
theorem spec_C8 (parse : String → Option (List PyStmt)) (supply : Nat → Nat)
    (inputs : List (String × String)) (k : Nat) :
    ∀ e ∈ (runPipeline parse supply (inputs.take k)).edges,
      e.j_type = "for_file" ∧
      e.src < (runPipeline parse supply (inputs.take k)).nodes.length ∧
      ((runPipeline parse supply (inputs.take k)).nodes.getD e.src defaultNode).j_type
        = "doc" ∧
      e.dst < (runPipeline parse supply (inputs.take k)).nodes.length ∧
      ((runPipeline parse supply (inputs.take k)).nodes.getD e.dst defaultNode).j_type
        = "file" :=
  (pipelineInvs parse supply (inputs.take k) ⟨[], []⟩ EdgeInv_empty FileLinked_empty).1

/-- Witness for C8 on a one-file run: the single created edge is a
`for_file` edge whose source node is the doc node at index 1. -/
theorem spec_C8_witness :
    (⟨"for_file", 1, 0⟩ : Edge) ∈
      (runPipeline (fun _ => none) (fun n => n) ([("src/a.js", "// x")].take 1)).edges ∧
    ((runPipeline (fun _ => none) (fun n => n)
        ([("src/a.js", "// x")].take 1)).nodes.getD 1 defaultNode).j_type = "doc" := by
  refine ⟨by decide, ?_⟩
  exact ((spec_C8 (fun _ => none) (fun n => n) [("src/a.js", "// x")] 1)
    ⟨"for_file", 1, 0⟩ (by decide)).2.2.1

/-- C9: the pipeline's markdown output is deterministic: it does not
depend on the node-identity supply (the model of `id(self)`), and the
final contents of every file the run writes do not depend on the prior
contents of the output directory (writes overwrite, they do not
accumulate), so two runs over the same inputs in the same order yield
byte-identical output files. -/
theorem spec_C9 (parse : String → Option (List PyStmt)) (supply1 supply2 : Nat → Nat)
    (fs1 fs2 : String → Option String) (inputs : List (String × String)) (name : String) :
    renderOutputs (runPipeline parse supply1 inputs) =
      renderOutputs (runPipeline parse supply2 inputs) ∧
    (name ∈ (renderOutputs (runPipeline parse supply1 inputs)).map Prod.fst →
      applyWrites fs1 (renderOutputs (runPipeline parse supply1 inputs)) name =
        applyWrites fs2 (renderOutputs (runPipeline parse supply2 inputs)) name) := by
  have heq : renderOutputs (runPipeline parse supply1 inputs) =
      renderOutputs (runPipeline parse supply2 inputs) :=
    (renderOutputs_runPipeline parse supply1 inputs).trans
      (renderOutputs_runPipeline parse supply2 inputs).symm
  refine ⟨heq, fun hmem => ?_⟩
  rw [← heq]
  exact applyWrites_writes_eq _ fs1 fs2 name hmem

/-- Witness for C9: a run over one file writes the same final contents
for its output file regardless of the id supply and of the prior state
of the output directory. -/
theorem spec_C9_witness :
    applyWrites (fun _ => none)
        (renderOutputs (runPipeline (fun _ => none) (fun n => n) [("src/a.js", "// x")]))
        "a.js.md" =
      applyWrites (fun _ => some "stale")
        (renderOutputs (runPipeline (fun _ => none) (fun n => n + 7) [("src/a.js", "// x")]))
        "a.js.md" :=
  (spec_C9 (fun _ => none) (fun n => n) (fun n => n + 7) (fun _ => none)
    (fun _ => some "stale") [("src/a.js", "// x")] "a.js.md").2 (by decide)

/-- C10: every file node in the final graph has at least one incoming
`for_file` edge (a placeholder doc item is synthesized when extraction
finds nothing), so for every entry the renderer iterates over, its
`linked_docs` list is non-empty and the `"No extracted docs found."`
branch is unreachable. -/
theorem spec_C10 (parse : String → Option (List PyStmt)) (supply : Nat → Nat)
    (inputs : List (String × String)) :
    ∀ pr ∈ typedEntries "file" 0 (runPipeline parse supply inputs).nodes,
      linkedDocs (runPipeline parse supply inputs) pr.1 ≠ [] :=
  (pipelineInvs parse supply inputs ⟨[], []⟩ EdgeInv_empty FileLinked_empty).2

/-- Witness for C10 on a one-file run with empty extraction: the file
node at index 0 still has a linked doc. -/
theorem spec_C10_witness :
    linkedDocs (runPipeline (fun _ => none) (fun n => n) [("src/b.js", "")]) 0 ≠ [] :=
  spec_C10 (fun _ => none) (fun n => n) [("src/b.js", "")]
    (0, ⟨0, "file", [("path", "src/b.js"), ("content", "")]⟩) (by decide)
